import Mathlib

/-
Verification of the local cache (src/lib/LocalCache.py) and the concurrent
batch executor (src/lib/SimpleBatchRequester.py) of this repository.

The embedding is shallow: filesystem state is explicit, Python values are a
small inductive closed under the classifications the cache actually inspects
(JSON-serializability and pickle-ability), and every definition below mirrors
one function of the source, statement for statement.
-/

/-- Model of a Python value as the cache sees it.  The cache treats payloads
abstractly except for (a) equality, used by the invalidate check, and
(b) serializability: `json.dump` succeeds exactly on JSON-representable
values, `pickle.dump` on picklable ones.  `pobj tag j p` stands for any
other object (dict, list, DataFrame, lambda, ...) classified by whether the
two serializers accept it. -/
inductive PyVal
  | pnone
  | pbool (b : Bool)
  | pint (n : Int)
  | pstr (s : String)
  | pobj (tag : String) (jsonOk : Bool) (pickleOk : Bool)
deriving DecidableEq, Repr, Inhabited

/-- Whether `json.dump` accepts the value (no TypeError). -/
def PyVal.jsonable : PyVal → Bool
  | .pobj _ j _ => j
  | _ => true

/-- Whether `pickle.dump` accepts the value.  Every JSON primitive is
picklable. -/
def PyVal.picklable : PyVal → Bool
  | .pobj _ _ p => p
  | _ => true

/-- Cache file extension: `.json` (primary) or `.pkl` (fallback). -/
inductive CExt
  | json
  | pkl
deriving DecidableEq, Repr

/-- Content of a cache file on disk: a successfully serialized value, or
bytes that the corresponding loader rejects (partial writes, garbage,
tampering; anything that raises inside the `try` of `_cache_handler`). -/
inductive FileContent
  | val (v : PyVal)
  | corrupt
deriving DecidableEq, Repr

/-- A cache file: its modification time in milliseconds (the code computes
`os.path.getmtime(path) * 1000`) and its content.  Note the on-disk record
carries no expiry information of its own. -/
structure CacheFile where
  mtime : Int
  content : FileContent
deriving DecidableEq, Repr

/-- Association-list lookup keyed by (key, extension). -/
def lookupA : List ((String × CExt) × CacheFile) → String × CExt → Option CacheFile
  | [], _ => none
  | (k, f) :: rest, q => if k = q then some f else lookupA rest q

/-- Remove every record under the given (key, extension). -/
def eraseA (l : List ((String × CExt) × CacheFile)) (q : String × CExt) :
    List ((String × CExt) × CacheFile) :=
  l.filter (fun e => e.1 ≠ q)

/-- Insert or replace the record under the given (key, extension). -/
def insertA (l : List ((String × CExt) × CacheFile)) (q : String × CExt)
    (f : CacheFile) : List ((String × CExt) × CacheFile) :=
  (q, f) :: eraseA l q

/-- State of the cache directory: the files under the root, plus whether the
disabled marker file `.py-local-cache-disabled` is present under the root.
The marker is a filesystem fact, so it is part of the same state that every
cache instance pointed at this root shares. -/
structure FsState where
  files : List ((String × CExt) × CacheFile)
  disabled : Bool
deriving DecidableEq, Repr

def findFile (st : FsState) (key : String) (ext : CExt) : Option CacheFile :=
  lookupA st.files (key, ext)

def writeFile (st : FsState) (key : String) (ext : CExt) (f : CacheFile) : FsState :=
  { st with files := insertA st.files (key, ext) f }

def removeFile (st : FsState) (key : String) (ext : CExt) : FsState :=
  { st with files := eraseA st.files (key, ext) }

theorem lookupA_eraseA (l : List ((String × CExt) × CacheFile)) (q q' : String × CExt) :
    lookupA (eraseA l q) q' = if q' = q then none else lookupA l q' := by
  induction l with
  | nil => simp [eraseA, lookupA]
  | cons e rest ih =>
    obtain ⟨k, f⟩ := e
    by_cases hk : k = q
    · have he : eraseA ((k, f) :: rest) q = eraseA rest q := by
        simp [eraseA, hk]
      rw [he, ih]
      by_cases hq : q' = q
      · simp [hq]
      · have hkq : ¬ k = q' := by
          rw [hk]
          exact fun h => hq h.symm
        simp [lookupA, hq, hkq]
    · have he : eraseA ((k, f) :: rest) q = (k, f) :: eraseA rest q := by
        simp [eraseA, hk]
      rw [he]
      by_cases hkq : k = q'
      · have hq : ¬ q' = q := by
          rw [← hkq]
          exact fun h => hk h
        simp [lookupA, hkq, hq]
      · simp [lookupA, hkq, ih]

theorem lookupA_insertA (l : List ((String × CExt) × CacheFile)) (q q' : String × CExt)
    (f : CacheFile) :
    lookupA (insertA l q f) q' = if q' = q then some f else lookupA l q' := by
  by_cases hq : q = q'
  · subst hq
    simp [insertA, lookupA]
  · have hq' : ¬ (q' = q) := fun h => hq h.symm
    simp [insertA, lookupA, hq, hq', lookupA_eraseA]

theorem findFile_writeFile (st : FsState) (key : String) (ext : CExt) (f : CacheFile)
    (key' : String) (ext' : CExt) :
    findFile (writeFile st key ext f) key' ext' =
      if (key', ext') = (key, ext) then some f else findFile st key' ext' := by
  simp [findFile, writeFile, lookupA_insertA]

theorem findFile_removeFile (st : FsState) (key : String) (ext : CExt)
    (key' : String) (ext' : CExt) :
    findFile (removeFile st key ext) key' ext' =
      if (key', ext') = (key, ext) then none else findFile st key' ext' := by
  simp [findFile, removeFile, lookupA_eraseA]

/-- Embedding of `LocalCache._is_expired`: the file has expired when
`(now_ms - mod_time_ms) >= ttl_ms`, where `mod_time_ms` is the file
modification time.  The TTL is the one handed to the read, not anything
recorded in the file. -/
def is_expired (nowMs mtimeMs ttlMs : Int) : Bool :=
  decide (ttlMs ≤ nowMs - mtimeMs)

/-- The `invalidate_if_return` argument as received by `_cache_handler`.
The code guards the invalidate check with
`invalidate_if_return is not __INVALIDATE__` (object identity against the
module string literal, which CPython interns):
`defaultArg` is the omitted argument (the literal itself),
`literalSentinel` is a caller passing that same interned literal, and
`passed v` is any other object, for which the identity test succeeds and the
check becomes active. -/
inductive InvArg
  | defaultArg
  | literalSentinel
  | passed (v : PyVal)
deriving DecidableEq, Repr

/-- Whether the invalidate comparison runs at all: the identity guard
deactivates it exactly when the argument is the interned default literal. -/
def checkActive : InvArg → Bool
  | .passed _ => true
  | _ => false

/-- The value the active check compares the cached value against. -/
def invValue : InvArg → PyVal
  | .passed v => v
  | _ => PyVal.pstr "__INVALIDATE__"

/-- Result of the read portion of `_cache_handler` for one extension:
the hit (if any), the updated directory state, and the files deleted. -/
structure ReadOut where
  hit : Option PyVal
  state : FsState
  removed : List (String × CExt)
deriving DecidableEq, Repr

/-- One load attempt of `_cache_handler` (the `.json` block or the `.pkl`
block), restricted to loads whose failure raises a class listed in that
block's `except` clause.  If the file exists and is fresh, the loader runs:
content that raises a listed class (corrupt bytes, or the filename-hash
mismatch `ValueError`) is caught, the file is deleted, and the attempt
falls through; a loaded value equal to an active invalidate argument falls
through without deletion; otherwise the value is a hit.  Expired files are
skipped without being touched.  The two `except` clauses list different
classes and `pickle.load` can raise outside its list; `readStepE` below is
the exception-aware embedding, and `readStepE_agrees` identifies the two
wherever every corrupt file met raises a listed class. -/
def readStep (st : FsState) (nowMs : Int) (key : String) (ttlMs : Int)
    (inv : InvArg) (ext : CExt) : ReadOut :=
  match findFile st key ext with
  | none => ⟨none, st, []⟩
  | some f =>
    if is_expired nowMs f.mtime ttlMs then ⟨none, st, []⟩
    else
      match f.content with
      | .corrupt => ⟨none, removeFile st key ext, [(key, ext)]⟩
      | .val v =>
        if checkActive inv = true ∧ v = invValue inv then ⟨none, st, []⟩
        else ⟨some v, st, []⟩

/-- The full read portion of `_cache_handler`: try the JSON file, then the
pickle file. -/
def readPhase (st : FsState) (nowMs : Int) (key : String) (ttlMs : Int)
    (inv : InvArg) : ReadOut :=
  let r1 := readStep st nowMs key ttlMs inv CExt.json
  match r1.hit with
  | some _ => r1
  | none =>
    let r2 := readStep r1.state nowMs key ttlMs inv CExt.pkl
    ⟨r2.hit, r2.state, r1.removed ++ r2.removed⟩

/-- Exception classes a failing cache-file load can raise.  `json.load` on
unreadable text raises `json.JSONDecodeError` or, for undecodable bytes,
`UnicodeDecodeError` — both `ValueError` subclasses — besides `IOError` on
read failures.  `pickle.load` raises `pickle.UnpicklingError` (a
`pickle.PickleError`) or `ValueError` on many malformed inputs, but a
truncated or empty file raises `EOFError`, and garbage that parses as
opcodes referencing missing names raises `AttributeError`, `KeyError` or
`ImportError`. -/
inductive LoadExn
  | ioError
  | jsonDecodeError
  | valueError
  | pickleError
  | eofError
  | attributeError
  | keyError
  | importError
deriving DecidableEq, Repr

/-- The `except` tuples of the two load blocks of `_cache_handler`:
`(IOError, json.JSONDecodeError, ValueError)` for the JSON block and
`(IOError, pickle.PickleError, ValueError)` for the pickle block.
`jsonDecodeError` counts as a `ValueError` subclass, so it is also caught
by the pickle tuple; the last four classes are caught by neither. -/
def blockCatches : CExt → LoadExn → Bool
  | CExt.json, LoadExn.ioError => true
  | CExt.json, LoadExn.jsonDecodeError => true
  | CExt.json, LoadExn.valueError => true
  | CExt.json, _ => false
  | CExt.pkl, LoadExn.ioError => true
  | CExt.pkl, LoadExn.pickleError => true
  | CExt.pkl, LoadExn.valueError => true
  | CExt.pkl, LoadExn.jsonDecodeError => true
  | CExt.pkl, _ => false

/-- Exception-aware embedding of one load block of `_cache_handler`.
`raisedBy (key, ext)` is the class the loader raises on the corrupt bytes
currently stored at that path (a property of the bytes, exogenous to the
control flow).  A raised class listed in the block's `except` tuple is
caught: the file is deleted and the attempt falls through as before; a
class outside the tuple propagates out of `_cache_handler` to the caller,
before any `os.remove`. -/
def readStepE (raisedBy : String × CExt → LoadExn) (st : FsState) (nowMs : Int)
    (key : String) (ttlMs : Int) (inv : InvArg) (ext : CExt) :
    Except LoadExn ReadOut :=
  match findFile st key ext with
  | none => Except.ok ⟨none, st, []⟩
  | some f =>
    if is_expired nowMs f.mtime ttlMs then Except.ok ⟨none, st, []⟩
    else
      match f.content with
      | FileContent.corrupt =>
        if blockCatches ext (raisedBy (key, ext)) then
          Except.ok ⟨none, removeFile st key ext, [(key, ext)]⟩
        else Except.error (raisedBy (key, ext))
      | FileContent.val v =>
        if checkActive inv = true ∧ v = invValue inv then Except.ok ⟨none, st, []⟩
        else Except.ok ⟨some v, st, []⟩

/-- Exception-aware read portion of `_cache_handler`: the JSON block, then
the pickle block; an uncaught load exception aborts the whole call. -/
def readPhaseE (raisedBy : String × CExt → LoadExn) (st : FsState) (nowMs : Int)
    (key : String) (ttlMs : Int) (inv : InvArg) : Except LoadExn ReadOut :=
  match readStepE raisedBy st nowMs key ttlMs inv CExt.json with
  | Except.error e => Except.error e
  | Except.ok r1 =>
    match r1.hit with
    | some _ => Except.ok r1
    | none =>
      match readStepE raisedBy r1.state nowMs key ttlMs inv CExt.pkl with
      | Except.error e => Except.error e
      | Except.ok r2 => Except.ok ⟨r2.hit, r2.state, r1.removed ++ r2.removed⟩

/-- The write portion of `_cache_handler`, executed on a miss after the
recomputation.  `open(path, "w")` creates or truncates the target before the
serializer runs, so a serializer that raises still leaves a (corrupt,
partial) file behind: a successful `json.dump` stores the value and removes
any pickle file; on `TypeError` the code falls back to `pickle.dump`, which
on success removes the JSON file; if the fallback also raises, the handler
only logs, leaving the two partial files in place. -/
def writePhase (st : FsState) (nowMs : Int) (key : String) (result : PyVal) : FsState :=
  if result.jsonable then
    removeFile (writeFile st key CExt.json ⟨nowMs, FileContent.val result⟩) key CExt.pkl
  else
    let st1 := writeFile st key CExt.json ⟨nowMs, FileContent.corrupt⟩
    if result.picklable then
      removeFile (writeFile st1 key CExt.pkl ⟨nowMs, FileContent.val result⟩) key CExt.json
    else
      writeFile st1 key CExt.pkl ⟨nowMs, FileContent.corrupt⟩

/-- Embedding of `LocalCache._cache_handler`: `ttl_ms = ttl_s * 1000`, then
the read phase; on a miss the wrapped function runs (its pure result is the
`fnResult` argument) and the write phase stores it. -/
def cacheHandler (st : FsState) (nowMs : Int) (key : String) (ttl_s : Int)
    (inv : InvArg) (fnResult : PyVal) : PyVal × FsState :=
  let r := readPhase st nowMs key (ttl_s * 1000) inv
  match r.hit with
  | some v => (v, r.state)
  | none => (fnResult, writePhase r.state nowMs key fnResult)

/-- Embedding of `LocalCache.disable_cache`: create the marker file. -/
def disable_cache (st : FsState) : FsState :=
  { st with disabled := true }

/-- Embedding of `LocalCache.enable_cache`: remove the marker file (a
missing marker is ignored). -/
def enable_cache (st : FsState) : FsState :=
  { st with disabled := false }

/-- Embedding of the `@cache` decorator wrapper around `_cache_handler`
(`LocalCache.cache`): if the disabled marker file is present the wrapped
function is called directly and nothing is read from or written to the
store; otherwise the derived key is handed to `_cache_handler`.  The key
digest (md5 of the canonical JSON dump of the key components) is abstracted
as the deterministic function `keyOf`. -/
def cacheWrapper (st : FsState) (nowMs : Int) (ttl_s : Int) (inv : InvArg)
    (key : String) (fnResult : PyVal) : PyVal × FsState :=
  if st.disabled then (fnResult, st)
  else cacheHandler st nowMs key ttl_s inv fnResult

/-- Member names defined on the `LocalCache` class (and its instances) in
src/lib/LocalCache.py, read off the class body.  Neither `get` nor `set`
appears: the class exposes caching only through `cache`, `cache_url` and the
internal `_cache_handler`. -/
def localCacheMemberNames : List String :=
  ["_instance", "_initialized", "cache_dir", "print_hits", "print_misses",
   "print_errors", "cache_disabled_flag", "_is_cache_disabled", "_print",
   "_get_file_path", "_is_expired", "_cache_handler", "cache_url", "cache",
   "disable_cache", "enable_cache"]

/-- A request dictionary as consumed by `SimpleBatchRequester._worker`.
Only the fields the control flow inspects are modelled: the optional `id`
and the optional `cache_time`; `url`, `method`, `params`, `data`, `headers`
and `timeout` feed the exogenous HTTP call. -/
structure Request where
  rid : Option String
  cacheTime : Option Int
deriving DecidableEq, Repr, Inhabited

/-- Outcome of `requests.request` plus `raise_for_status`: either a good
response (status, body) or a `requests.exceptions.RequestException`. -/
inductive HttpResult
  | ok (status : Nat) (content : String)
  | reqError (msg : String)
deriving DecidableEq, Repr

/-- The inner `result` dictionary built by the worker. -/
inductive Payload
  | success (status : Nat) (content : String)
  | failure (error : String)
deriving DecidableEq, Repr, Inhabited

/-- The identifier stored in a result dictionary:
`request_data.get(...) or request_index`, with Python truthiness (an absent
or empty id falls back to the temporary request index). -/
inductive ReqId
  | str (s : String)
  | idx (n : Nat)
deriving DecidableEq, Repr

def mkReqId (req : Request) (tempIdx : Nat) : ReqId :=
  match req.rid with
  | some s => if s = "" then ReqId.idx tempIdx else ReqId.str s
  | none => ReqId.idx tempIdx

/-- The dictionary a worker hands back on normal return. -/
structure BatchResult where
  id : ReqId
  index : Nat
  result : Payload
deriving DecidableEq, Repr

/-- How one `_worker` future completes: a returned result dictionary, or an
exception escaping the worker (anything not a RequestException). -/
inductive WorkerOut
  | ok (p : Payload)
  | exn
deriving DecidableEq, Repr

/-- Embedding of `SimpleBatchRequester._worker` up to its observable
completion.  When `cache_time` is set, the worker evaluates
`cache_handler.get(cache_hash)` inside its `try` block; `LocalCache` defines
no attribute `get` (see `localCacheMemberNames`), so the call raises
`AttributeError`, which the `except requests.exceptions.RequestException`
clause does not catch — the worker raises before any network activity.
Otherwise the HTTP call runs: a RequestException becomes an error payload
and any other response a success payload. -/
def workerStep (req : Request) (http : HttpResult) : WorkerOut :=
  if req.cacheTime.isSome then WorkerOut.exn
  else
    match http with
    | .ok status content => WorkerOut.ok (Payload.success status content)
    | .reqError msg => WorkerOut.ok (Payload.failure msg)

/-- The result entry `_process_batch` produces for temporary index `t`, if
its worker returned: `result.index` is rewritten through the original-index
map (`original_index_map.get(temp, temp)`), while `result.id` keeps the
temporary index the worker saw. -/
def passResult (reqs : List Request) (omap : Nat → Nat) (outs : Nat → WorkerOut)
    (t : Nat) : Option BatchResult :=
  match outs t with
  | .ok p => some { id := mkReqId (reqs.getD t default) t, index := omap t, result := p }
  | .exn => none

/-- The failed-index entry `_process_batch` records for temporary index `t`,
if its worker raised (mapped back through the original-index map). -/
def passFail (omap : Nat → Nat) (outs : Nat → WorkerOut) (t : Nat) : Option Nat :=
  match outs t with
  | .ok _ => none
  | .exn => some (omap t)

/-- Embedding of `SimpleBatchRequester._process_batch`: every request in the
sub-batch is submitted once; returned dictionaries are collected with their
indices remapped, raising workers contribute their original index to the
failed set.  Futures complete in nondeterministic order, but the caller
only writes each result to its own slot, so collecting in submission order
is observationally equivalent; the failed set is modelled as the duplicate-
free list of failed indices in submission order. -/
def processBatch (reqs : List Request) (omap : Nat → Nat) (outs : Nat → WorkerOut) :
    List BatchResult × List Nat :=
  ((List.range reqs.length).filterMap (passResult reqs omap outs),
   (List.range reqs.length).filterMap (passFail omap outs))

/-- Placement loop `results[res[...]] = res` over a list of produced result
dictionaries. -/
def mergeResults (init : List (Option BatchResult)) (rs : List BatchResult) :
    List (Option BatchResult) :=
  rs.foldl (fun acc r => acc.set r.index (some r)) init

/-- First-pass failed indices of a run (`omap` is the identity on the first
pass). -/
def firstPassFailed (reqs : List Request) (outs1 : Nat → WorkerOut) : List Nat :=
  (processBatch reqs (fun t => t) outs1).2

/-- The retry sub-batch of `SimpleBatchRequester.run`: the requests at the
failed original indices (`failed_requests = [requests_list[i] for i in
failed_indices]`) are processed with temporary indices mapped back through
`original_index_map.get(temp, temp)`, i.e. `failed[t]` for temporary index
`t`. -/
def retryPass (reqs : List Request) (failed : List Nat) (outs2 : Nat → WorkerOut) :
    List BatchResult :=
  (processBatch (failed.map (fun i => reqs.getD i default))
    (fun t => failed.getD t t) (fun t => outs2 (failed.getD t t))).1

/-- Embedding of `SimpleBatchRequester.run`.  `outs1 j` is the completion of
the worker for the request at original index `j` on the initial pass, and
`outs2 j` its completion on the (single) retry pass; both are exogenous
because they depend on the network.  The output list starts as
`[None] * len(requests_list)`; first-pass results are placed by index; if
any index failed, exactly the requests at the failed indices are re-run as
one retry sub-batch and those results are placed on top. -/
def runBatch (reqs : List Request) (outs1 outs2 : Nat → WorkerOut) :
    List (Option BatchResult) :=
  let results1 := mergeResults (List.replicate reqs.length none)
    (processBatch reqs (fun t => t) outs1).1
  let failed := firstPassFailed reqs outs1
  if failed.isEmpty then results1
  else mergeResults results1 (retryPass reqs failed outs2)

/-- A positional argument as seen by the `@cache` wrapper: either an object
exposing an `instance_id` attribute (recorded as the string `str` renders it
to) or one that does not. -/
inductive ArgObj
  | plain (v : PyVal)
  | withIdAttr (v : PyVal) (instanceId : String)
deriving DecidableEq, Repr

/-- One component of the `key_components` list the wrapper serializes. -/
inductive KeyComp
  | fname (s : String)
  | argsC (xs : List ArgObj)
  | kwargsC (kvs : List (String × PyVal))
  | identC (s : String)
deriving DecidableEq, Repr

/-- Key order on keyword-argument entries. -/
def kwLE (a b : String × PyVal) : Prop := a.1 ≤ b.1

instance : DecidableRel kwLE := fun a b => inferInstanceAs (Decidable (a.1 ≤ b.1))

instance : IsTotal (String × PyVal) kwLE := ⟨fun a b => le_total a.1 b.1⟩

instance : IsTrans (String × PyVal) kwLE := ⟨fun _ _ _ h1 h2 => le_trans h1 h2⟩

/-- The canonical order `json.dumps(readable, sort_keys=True)` serializes a
keyword-argument dictionary in: sorted by key. -/
def sortKwargs (kwargs : List (String × PyVal)) : List (String × PyVal) :=
  List.insertionSort kwLE kwargs

/-- Embedding of the key derivation in the `@cache` wrapper
(`LocalCache.cache`): `is_method` is whether `func.__qualname__` contains a
dot; when it holds and positional arguments are present, the first argument
is treated as the receiver, dropped from the hashed arguments, and its
`instance_id` attribute (stringified) — or the shared `__DEFAULT__` token
when the attribute is missing — becomes the candidate identity; the
candidate is appended only if truthy (a non-empty string).  The cache key
is the md5 digest of the canonical JSON dump of this component list, a
deterministic injection on the abstraction level used here, so equal
component lists mean equal keys. -/
def cacheKeyComponents (funcName : String) (qualnameHasDot : Bool)
    (args : List ArgObj) (kwargs : List (String × PyVal)) : List KeyComp :=
  let hasRecv := qualnameHasDot && !args.isEmpty
  let instanceId : Option String :=
    if hasRecv then
      match args.head? with
      | some (ArgObj.withIdAttr _ s) => some s
      | some (ArgObj.plain _) => some "__DEFAULT__"
      | none => none
    else none
  let cacheArgs := if hasRecv then args.tail else args
  let base := [KeyComp.fname funcName, KeyComp.argsC cacheArgs,
               KeyComp.kwargsC (sortKwargs kwargs)]
  match instanceId with
  | some s => if s = "" then base else base ++ [KeyComp.identC s]
  | none => base

theorem sorted_perm_nodupKeys_eq :
    ∀ (s1 s2 : List (String × PyVal)), s1.Perm s2 →
      s1.Sorted kwLE → s2.Sorted kwLE → (s1.map Prod.fst).Nodup → s1 = s2 := by
  intro s1
  induction s1 with
  | nil =>
    intro s2 hp _ _ _
    exact (List.Perm.nil_eq hp).symm |>.symm ▸ rfl
  | cons a t ih =>
    intro s2 hp hs1 hs2 hnd
    cases s2 with
    | nil => exact absurd hp.symm (by simp)
    | cons b u =>
      have hab : a = b := by
        have ha2 : a ∈ b :: u := hp.mem_iff.mp (List.mem_cons_self a t)
        have hb1 : b ∈ a :: t := hp.symm.mem_iff.mp (List.mem_cons_self b u)
        rcases List.mem_cons.mp ha2 with h | hau
        · exact h
        rcases List.mem_cons.mp hb1 with h | hbt
        · exact h.symm
        have h1 : kwLE a b := (List.sorted_cons.mp hs1).1 b hbt
        have h2 : kwLE b a := (List.sorted_cons.mp hs2).1 a hau
        have hkeys : a.1 = b.1 := le_antisymm h1 h2
        have : a.1 ∈ t.map Prod.fst := by
          rw [hkeys]
          exact List.mem_map_of_mem Prod.fst hbt
        exact absurd this (by simpa using (List.nodup_cons.mp hnd).1)
      subst hab
      have ht : t.Perm u := hp.cons_inv
      have := ih u ht (List.sorted_cons.mp hs1).2 (List.sorted_cons.mp hs2).2
        (by simpa using (List.nodup_cons.mp hnd).2)
      rw [this]

theorem readStep_none (st : FsState) (nowMs ttlMs : Int) (key : String)
    (inv : InvArg) (ext : CExt) (h : findFile st key ext = none) :
    readStep st nowMs key ttlMs inv ext = ⟨none, st, []⟩ := by
  simp [readStep, h]

theorem readStep_expired (st : FsState) (nowMs ttlMs : Int) (key : String)
    (inv : InvArg) (ext : CExt) (f : CacheFile)
    (h : findFile st key ext = some f)
    (he : is_expired nowMs f.mtime ttlMs = true) :
    readStep st nowMs key ttlMs inv ext = ⟨none, st, []⟩ := by
  simp [readStep, h, he]

theorem readStep_corrupt (st : FsState) (nowMs ttlMs : Int) (key : String)
    (inv : InvArg) (ext : CExt) (f : CacheFile)
    (h : findFile st key ext = some f)
    (he : is_expired nowMs f.mtime ttlMs = false)
    (hc : f.content = FileContent.corrupt) :
    readStep st nowMs key ttlMs inv ext = ⟨none, removeFile st key ext, [(key, ext)]⟩ := by
  simp [readStep, h, he, hc]

theorem readStep_hit (st : FsState) (nowMs ttlMs : Int) (key : String)
    (inv : InvArg) (ext : CExt) (f : CacheFile) (v : PyVal)
    (h : findFile st key ext = some f)
    (he : is_expired nowMs f.mtime ttlMs = false)
    (hv : f.content = FileContent.val v)
    (hinv : ¬ (checkActive inv = true ∧ v = invValue inv)) :
    readStep st nowMs key ttlMs inv ext = ⟨some v, st, []⟩ := by
  simp [readStep, h, he, hv, hinv]

theorem readStep_invalidated (st : FsState) (nowMs ttlMs : Int) (key : String)
    (inv : InvArg) (ext : CExt) (f : CacheFile) (v : PyVal)
    (h : findFile st key ext = some f)
    (he : is_expired nowMs f.mtime ttlMs = false)
    (hv : f.content = FileContent.val v)
    (hinv : checkActive inv = true ∧ v = invValue inv) :
    readStep st nowMs key ttlMs inv ext = ⟨none, st, []⟩ := by
  simp [readStep, h, he, hv, hinv]

/-- Concrete cache directory holding one JSON entry for key `k`, written at
time 0, value the string `v`. -/
def stFresh : FsState :=
  ⟨[(("k", CExt.json), ⟨0, FileContent.val (PyVal.pstr "v")⟩)], false⟩

/-- Claim C3 counterexample.  The claim asserts values are written in an
envelope fixing `expires_at = now + ttl` at write time, and that a read
decides expiry against that stored timestamp rather than against a TTL
supplied at read time.  In the code, the stored record is the bare value
with only the file modification time attached, and two reads of the same
unmodified entry at the same instant disagree when handed different TTLs
(ttl_s = 2 makes the 5-second-old entry a miss and reruns the function;
ttl_s = 10 makes it a hit), which is impossible if expiry were a pure
comparison of the current time with a stored write-time expiry. -/
theorem cache_read_ttl_dependent :
    findFile (writePhase ⟨[], false⟩ 7 "k2" (PyVal.pstr "w")) "k2" CExt.json
      = some ⟨7, FileContent.val (PyVal.pstr "w")⟩ ∧
    (cacheHandler stFresh 5000 "k" 2 InvArg.defaultArg (PyVal.pstr "fresh")).1
      = PyVal.pstr "fresh" ∧
    (cacheHandler stFresh 5000 "k" 10 InvArg.defaultArg (PyVal.pstr "fresh")).1
      = PyVal.pstr "v" := by
  exact ⟨by decide, by decide, by decide⟩

/-- Claim C3 (amended): a write stores the bare value in a file whose
modification time is the write time — no expiry timestamp is persisted —
and a read decides expiry by comparing the age of the file
(`now_ms - mtime_ms`) against the TTL supplied with that read: the entry is
served exactly while the age is below the TTL. -/
theorem cache_entry_mtime_ttl_semantics :
    (∀ (st : FsState) (nowMs : Int) (key : String) (v : PyVal),
      v.jsonable = true →
      findFile (writePhase st nowMs key v) key CExt.json
        = some ⟨nowMs, FileContent.val v⟩) ∧
    (∀ (st : FsState) (nowMs ttlMs : Int) (key : String) (f : CacheFile)
      (v : PyVal) (inv : InvArg),
      findFile st key CExt.json = some f → f.content = FileContent.val v →
      findFile st key CExt.pkl = none → checkActive inv = false →
      ((readPhase st nowMs key ttlMs inv).hit = some v ↔ nowMs - f.mtime < ttlMs)) := by
  constructor
  · intro st nowMs key v hj
    simp [writePhase, hj, findFile_removeFile, findFile_writeFile]
  · intro st nowMs ttlMs key f v inv hj hc hp hia
    by_cases he : is_expired nowMs f.mtime ttlMs = true
    · have h1 := readStep_expired st nowMs ttlMs key inv CExt.json f hj he
      have h2 := readStep_none st nowMs ttlMs key inv CExt.pkl hp
      have hexp : ¬ (nowMs - f.mtime < ttlMs) := by
        simp [is_expired] at he
        omega
      simp [readPhase, h1, h2, hexp]
    · have he' : is_expired nowMs f.mtime ttlMs = false := by
        simpa using he
      have h1 := readStep_hit st nowMs ttlMs key inv CExt.json f v hj he' hc
        (by simp [hia])
      have hlt : nowMs - f.mtime < ttlMs := by
        simp [is_expired] at he'
        omega
      simp [readPhase, h1, hlt]

/-- Claim C3 amended witness. -/
theorem cache_entry_mtime_ttl_semantics_witness :
    findFile (writePhase ⟨[], false⟩ 3 "w" (PyVal.pint 9)) "w" CExt.json
      = some ⟨3, FileContent.val (PyVal.pint 9)⟩ ∧
    ((readPhase stFresh 5000 "k" 9000 InvArg.defaultArg).hit = some (PyVal.pstr "v")
      ↔ (5000 : Int) - 0 < 9000) := by
  refine ⟨cache_entry_mtime_ttl_semantics.1 ⟨[], false⟩ 3 "w" (PyVal.pint 9) (by decide), ?_⟩
  exact cache_entry_mtime_ttl_semantics.2 stFresh 5000 9000 "k"
    ⟨0, FileContent.val (PyVal.pstr "v")⟩ (PyVal.pstr "v") InvArg.defaultArg
    (by decide) rfl (by decide) rfl

/-- Claim C4 counterexample.  The claim asserts a read of an expired entry
deletes the file.  In the code, the expired branch of `_cache_handler` skips
the load without touching the file: reading the 5-second-old entry of
`stFresh` with a 2-second TTL is a miss, yet the state is unchanged and the
list of files removed by the read is empty — the stale file is still on
disk when the read portion finishes. -/
theorem expired_read_keeps_file :
    readPhase stFresh 5000 "k" 2000 InvArg.defaultArg = ⟨none, stFresh, []⟩ ∧
    findFile (readPhase stFresh 5000 "k" 2000 InvArg.defaultArg).state "k" CExt.json
      = some ⟨0, FileContent.val (PyVal.pstr "v")⟩ := by
  exact ⟨by decide, by decide⟩

/-- Claim C4 (amended): a key whose cache file exists but is expired at read
time is treated as a miss, but the read neither deletes nor otherwise
touches the expired file; it is only replaced later if the miss path
recomputes the value and writes it back successfully. -/
theorem expired_read_is_miss_without_delete :
    ∀ (st : FsState) (nowMs ttlMs : Int) (key : String) (f : CacheFile)
      (inv : InvArg),
      findFile st key CExt.json = some f →
      is_expired nowMs f.mtime ttlMs = true →
      findFile st key CExt.pkl = none →
      readPhase st nowMs key ttlMs inv = ⟨none, st, []⟩ := by
  intro st nowMs ttlMs key f inv hj he hp
  have h1 := readStep_expired st nowMs ttlMs key inv CExt.json f hj he
  have h2 := readStep_none st nowMs ttlMs key inv CExt.pkl hp
  simp [readPhase, h1, h2]

/-- Claim C4 amended witness. -/
theorem expired_read_is_miss_without_delete_witness :
    readPhase stFresh 9000 "k" 2000 InvArg.defaultArg = ⟨none, stFresh, []⟩ :=
  expired_read_is_miss_without_delete stFresh 9000 2000 "k"
    ⟨0, FileContent.val (PyVal.pstr "v")⟩ InvArg.defaultArg
    (by decide) (by decide) (by decide)

theorem readStepE_agrees (raisedBy : String × CExt → LoadExn) (st : FsState)
    (nowMs ttlMs : Int) (key : String) (inv : InvArg) (ext : CExt)
    (h : ∀ f, findFile st key ext = some f → f.content = FileContent.corrupt →
      blockCatches ext (raisedBy (key, ext)) = true) :
    readStepE raisedBy st nowMs key ttlMs inv ext
      = Except.ok (readStep st nowMs key ttlMs inv ext) := by
  unfold readStepE readStep
  cases hf : findFile st key ext with
  | none => rfl
  | some f =>
    by_cases he : is_expired nowMs f.mtime ttlMs
    · simp [he]
    · cases hc : f.content with
      | corrupt => simp [he, hc, h f hf hc]
      | val v =>
        by_cases hi : checkActive inv = true ∧ v = invValue inv <;> simp [he, hc, hi]

theorem readPhaseE_agrees (raisedBy : String × CExt → LoadExn) (st : FsState)
    (nowMs ttlMs : Int) (key : String) (inv : InvArg)
    (hj : ∀ f, findFile st key CExt.json = some f →
      f.content = FileContent.corrupt →
      blockCatches CExt.json (raisedBy (key, CExt.json)) = true)
    (hp : ∀ f, findFile st key CExt.pkl = some f →
      f.content = FileContent.corrupt →
      blockCatches CExt.pkl (raisedBy (key, CExt.pkl)) = true) :
    readPhaseE raisedBy st nowMs key ttlMs inv
      = Except.ok (readPhase st nowMs key ttlMs inv) := by
  have h1 := readStepE_agrees raisedBy st nowMs ttlMs key inv CExt.json hj
  have hstate : (readStep st nowMs key ttlMs inv CExt.json).state = st ∨
      (readStep st nowMs key ttlMs inv CExt.json).state = removeFile st key CExt.json := by
    unfold readStep
    cases hf : findFile st key CExt.json with
    | none => exact Or.inl rfl
    | some f =>
      by_cases he : is_expired nowMs f.mtime ttlMs
      · simp [he]
      · cases hc : f.content with
        | corrupt => simp [he, hc]
        | val v =>
          by_cases hi : checkActive inv = true ∧ v = invValue inv <;> simp [he, hc, hi]
  have hp1 : ∀ f, findFile (readStep st nowMs key ttlMs inv CExt.json).state key CExt.pkl
      = some f → f.content = FileContent.corrupt →
      blockCatches CExt.pkl (raisedBy (key, CExt.pkl)) = true := by
    intro f hf hc
    rcases hstate with hs | hs
    · exact hp f (hs ▸ hf) hc
    · rw [hs, findFile_removeFile] at hf
      simp at hf
      exact hp f hf hc
  have h2 := readStepE_agrees raisedBy (readStep st nowMs key ttlMs inv CExt.json).state
    nowMs ttlMs key inv CExt.pkl hp1
  unfold readPhaseE readPhase
  rw [h1]
  cases hh : (readStep st nowMs key ttlMs inv CExt.json).hit with
  | some v => simp [hh]
  | none => simp [hh, h2]

/-- Claim C7 counterexample.  The claim asserts every corrupt, unexpired
cache file is deleted by the read, which proceeds as a miss with no error
raised to the caller.  The pickle block of `_cache_handler` catches only
`(IOError, pickle.PickleError, ValueError)`, while `pickle.load` on a
truncated or empty `.pkl` file raises `EOFError`, which is in none of those
classes: the read aborts with the exception propagating to the caller
before any `os.remove`, so the corrupt file is neither deleted nor treated
as a miss.  Concretely, a fresh corrupt `.pkl` entry for key `k` whose
bytes raise `EOFError` makes the exception-aware read return that error
instead of a miss. -/
theorem corrupt_pickle_escapes :
    blockCatches CExt.pkl LoadExn.eofError = false ∧
    readPhaseE (fun _ => LoadExn.eofError)
        ⟨[(("k", CExt.pkl), ⟨0, FileContent.corrupt⟩)], false⟩
        100 "k" 2000 InvArg.defaultArg
      = Except.error LoadExn.eofError := by
  exact ⟨rfl, by rfl⟩

/-- Claim C7 (amended): an existing, unexpired cache file whose load raises
a class listed in its block's `except` tuple is deleted by the read, which
proceeds as a miss with no error to the caller and every other (key,
extension) untouched.  For the primary `.json` format this covers every
class `json.load` raises on corrupt text (`JSONDecodeError` and
`UnicodeDecodeError` are `ValueError` subclasses, read failures are
`IOError`), so JSON corruption is always absorbed.  For the fallback
`.pkl` format only `IOError`, `pickle.PickleError` and `ValueError` are
absorbed; a `pickle.load` failure of another class — `EOFError` on a
truncated file, `AttributeError`, `KeyError` or `ImportError` on garbage
opcodes — propagates to the caller and the corrupt file stays on disk. -/
theorem corrupt_entry_handling :
    ∀ (raisedBy : String × CExt → LoadExn) (st : FsState) (nowMs ttlMs : Int)
      (key : String) (f : CacheFile) (inv : InvArg),
      (findFile st key CExt.json = some f →
        f.content = FileContent.corrupt →
        is_expired nowMs f.mtime ttlMs = false →
        blockCatches CExt.json (raisedBy (key, CExt.json)) = true →
        findFile st key CExt.pkl = none →
        readPhaseE raisedBy st nowMs key ttlMs inv
          = Except.ok ⟨none, removeFile st key CExt.json, [(key, CExt.json)]⟩ ∧
        findFile (removeFile st key CExt.json) key CExt.json = none ∧
        (∀ (key' : String) (ext' : CExt), ¬ (key' = key ∧ ext' = CExt.json) →
          findFile (removeFile st key CExt.json) key' ext'
            = findFile st key' ext')) ∧
      (findFile st key CExt.json = none →
        findFile st key CExt.pkl = some f →
        f.content = FileContent.corrupt →
        is_expired nowMs f.mtime ttlMs = false →
        blockCatches CExt.pkl (raisedBy (key, CExt.pkl)) = true →
        readPhaseE raisedBy st nowMs key ttlMs inv
          = Except.ok ⟨none, removeFile st key CExt.pkl, [(key, CExt.pkl)]⟩) ∧
      (findFile st key CExt.json = none →
        findFile st key CExt.pkl = some f →
        f.content = FileContent.corrupt →
        is_expired nowMs f.mtime ttlMs = false →
        blockCatches CExt.pkl (raisedBy (key, CExt.pkl)) = false →
        readPhaseE raisedBy st nowMs key ttlMs inv
          = Except.error (raisedBy (key, CExt.pkl))) := by
  intro raisedBy st nowMs ttlMs key f inv
  refine ⟨fun hj hc he hcat hp => ?_, fun hj hpk hc he hcat => ?_,
    fun hj hpk hc he hcat => ?_⟩
  · have h1 : readStepE raisedBy st nowMs key ttlMs inv CExt.json
        = Except.ok ⟨none, removeFile st key CExt.json, [(key, CExt.json)]⟩ := by
      unfold readStepE
      simp [hj, he, hc, hcat]
    have hp' : findFile (removeFile st key CExt.json) key CExt.pkl = none := by
      simp [findFile_removeFile, hp]
    have h2 : readStepE raisedBy (removeFile st key CExt.json) nowMs key ttlMs inv CExt.pkl
        = Except.ok ⟨none, removeFile st key CExt.json, []⟩ := by
      unfold readStepE
      simp [hp']
    refine ⟨?_, ?_, ?_⟩
    · unfold readPhaseE
      rw [h1]
      simp [h2]
    · simp [findFile_removeFile]
    · intro key' ext' hne
      have : ¬ ((key', ext') = (key, CExt.json)) := by
        simp only [Prod.mk.injEq]
        exact hne
      simp [findFile_removeFile, this]
  · have h1 : readStepE raisedBy st nowMs key ttlMs inv CExt.json
        = Except.ok ⟨none, st, []⟩ := by
      unfold readStepE
      simp [hj]
    have h2 : readStepE raisedBy st nowMs key ttlMs inv CExt.pkl
        = Except.ok ⟨none, removeFile st key CExt.pkl, [(key, CExt.pkl)]⟩ := by
      unfold readStepE
      simp [hpk, he, hc, hcat]
    unfold readPhaseE
    rw [h1]
    simp [h2]
  · have h1 : readStepE raisedBy st nowMs key ttlMs inv CExt.json
        = Except.ok ⟨none, st, []⟩ := by
      unfold readStepE
      simp [hj]
    have h2 : readStepE raisedBy st nowMs key ttlMs inv CExt.pkl
        = Except.error (raisedBy (key, CExt.pkl)) := by
      unfold readStepE
      simp [hpk, he, hc, hcat]
    unfold readPhaseE
    rw [h1]
    simp [h2]

/-- Claim C7 amended witness: a corrupt `.json` entry for key `k` whose
load raises `JSONDecodeError` (next to a good entry for key `m`) is
deleted and missed, leaving the other key untouched. -/
theorem corrupt_entry_handling_witness :
    readPhaseE (fun _ => LoadExn.jsonDecodeError)
        ⟨[(("k", CExt.json), ⟨0, FileContent.corrupt⟩),
          (("m", CExt.json), ⟨0, FileContent.val (PyVal.pstr "w")⟩)], false⟩
        100 "k" 2000 InvArg.defaultArg
      = Except.ok ⟨none,
          removeFile ⟨[(("k", CExt.json), ⟨0, FileContent.corrupt⟩),
            (("m", CExt.json), ⟨0, FileContent.val (PyVal.pstr "w")⟩)], false⟩
            "k" CExt.json, [("k", CExt.json)]⟩ ∧
    findFile (removeFile ⟨[(("k", CExt.json), ⟨0, FileContent.corrupt⟩),
        (("m", CExt.json), ⟨0, FileContent.val (PyVal.pstr "w")⟩)], false⟩
        "k" CExt.json) "m" CExt.json
      = some ⟨0, FileContent.val (PyVal.pstr "w")⟩ := by
  have h := (corrupt_entry_handling (fun _ => LoadExn.jsonDecodeError)
    ⟨[(("k", CExt.json), ⟨0, FileContent.corrupt⟩),
      (("m", CExt.json), ⟨0, FileContent.val (PyVal.pstr "w")⟩)], false⟩
    100 2000 "k" ⟨0, FileContent.corrupt⟩ InvArg.defaultArg).1
    (by decide) rfl (by decide) rfl (by decide)
  refine ⟨h.1, ?_⟩
  rw [h.2.2 "m" CExt.json (by decide)]
  decide

/-- Claim C8 counterexample.  The claim asserts that at most one of the two
serialized representations exists on disk for a key at any time, over every
write.  A value rejected by both serializers (e.g. a lambda: `json.dump`
raises TypeError, `pickle.dump` raises PicklingError) breaks this:
`open(path, "w")` and `open(path, "wb")` create the files before the dumps
raise, the fallback-failure handler only logs, and nothing is removed — so
after the write both a `.json` and a `.pkl` file exist for the key. -/
theorem double_serialization_failure_two_files :
    (findFile (writePhase ⟨[], false⟩ 0 "k" (PyVal.pobj "lambda_fn" false false))
        "k" CExt.json).isSome = true ∧
    (findFile (writePhase ⟨[], false⟩ 0 "k" (PyVal.pobj "lambda_fn" false false))
        "k" CExt.pkl).isSome = true := by
  exact ⟨by decide, by decide⟩

/-- Claim C8 (amended): for every write in which a serializer succeeds, at
most one representation remains — a successful primary (JSON) write stores
the value and removes any fallback file, and a fallback (pickle) write,
taken when the value is not JSON-representable, stores the value and
removes any primary file, so a value that only round-trips via the fallback
leaves no primary-format file behind.  Only when both serializers fail do
two (partial, corrupt) files remain. -/
theorem serialization_exclusivity :
    ∀ (st : FsState) (nowMs : Int) (key : String) (v : PyVal),
      (v.jsonable = true →
        findFile (writePhase st nowMs key v) key CExt.json
          = some ⟨nowMs, FileContent.val v⟩ ∧
        findFile (writePhase st nowMs key v) key CExt.pkl = none) ∧
      (v.jsonable = false → v.picklable = true →
        findFile (writePhase st nowMs key v) key CExt.pkl
          = some ⟨nowMs, FileContent.val v⟩ ∧
        findFile (writePhase st nowMs key v) key CExt.json = none) ∧
      (v.jsonable = false → v.picklable = false →
        findFile (writePhase st nowMs key v) key CExt.json
          = some ⟨nowMs, FileContent.corrupt⟩ ∧
        findFile (writePhase st nowMs key v) key CExt.pkl
          = some ⟨nowMs, FileContent.corrupt⟩) := by
  intro st nowMs key v
  refine ⟨fun hj => ?_, fun hj hp => ?_, fun hj hp => ?_⟩
  · constructor <;> simp [writePhase, hj, findFile_removeFile, findFile_writeFile]
  · constructor <;> simp [writePhase, hj, hp, findFile_removeFile, findFile_writeFile]
  · constructor <;> simp [writePhase, hj, hp, findFile_removeFile, findFile_writeFile]

/-- Claim C8 amended witness: a pickle-only value leaves exactly the
fallback file. -/
theorem serialization_exclusivity_witness :
    findFile (writePhase ⟨[(("k", CExt.json), ⟨0, FileContent.val PyVal.pnone⟩)], false⟩
        50 "k" (PyVal.pobj "df" false true)) "k" CExt.pkl
      = some ⟨50, FileContent.val (PyVal.pobj "df" false true)⟩ ∧
    findFile (writePhase ⟨[(("k", CExt.json), ⟨0, FileContent.val PyVal.pnone⟩)], false⟩
        50 "k" (PyVal.pobj "df" false true)) "k" CExt.json = none :=
  (serialization_exclusivity ⟨[(("k", CExt.json), ⟨0, FileContent.val PyVal.pnone⟩)], false⟩
    50 "k" (PyVal.pobj "df" false true)).2.1 (by decide) (by decide)

/-- Claim C9 (confirmed): while the disabled marker file is present under
the cache root, the `@cache` wrapper calls the wrapped function directly
and returns its result with the filesystem unchanged — nothing is read
(the result is independent of every cached entry, as the statement holds
for every directory content) and nothing is written.  `disable_cache`
creates the marker and `enable_cache` removes it, neither touching the
entries; since the marker is a file under the shared root, the suspension
is seen by every instance using that root and persists until the file is
removed. -/
theorem disabled_flag_bypasses_cache :
    (∀ (st : FsState) (nowMs ttl_s : Int) (inv : InvArg) (key : String)
      (fnResult : PyVal), st.disabled = true →
      cacheWrapper st nowMs ttl_s inv key fnResult = (fnResult, st)) ∧
    (∀ st : FsState, (disable_cache st).disabled = true ∧
      (disable_cache st).files = st.files) ∧
    (∀ st : FsState, (enable_cache st).disabled = false ∧
      (enable_cache st).files = st.files) := by
  refine ⟨fun st nowMs ttl_s inv key fnResult hd => ?_,
    fun st => ⟨rfl, rfl⟩, fun st => ⟨rfl, rfl⟩⟩
  simp [cacheWrapper, hd]

/-- Claim C9 witness: with the marker present, a wrapped call over a
populated cache returns the fresh function result and leaves the store
as it was. -/
theorem disabled_flag_bypasses_cache_witness :
    cacheWrapper ⟨[(("k", CExt.json), ⟨0, FileContent.val (PyVal.pstr "v")⟩)], true⟩
        10 60 InvArg.defaultArg "k" (PyVal.pstr "fresh")
      = (PyVal.pstr "fresh",
         ⟨[(("k", CExt.json), ⟨0, FileContent.val (PyVal.pstr "v")⟩)], true⟩) :=
  disabled_flag_bypasses_cache.1
    ⟨[(("k", CExt.json), ⟨0, FileContent.val (PyVal.pstr "v")⟩)], true⟩
    10 60 InvArg.defaultArg "k" (PyVal.pstr "fresh") rfl

/-- Claim C10 counterexample.  The claim asserts the default of
`invalidate_if_return` is a private sentinel that cannot equal a real
return value, and that a cached value is served exactly when it differs
from the caller-supplied sentinel.  In the code the default is the plain
string `__INVALIDATE__`, which a wrapped function can legitimately return
(first conjunct); and because the check is guarded by object identity
(`is not` against the interned literal), a fresh cached value equal to the
sentinel is still served, both under the default argument and when the
caller passes the interned literal itself (second and third conjuncts),
contradicting the claimed equality criterion. -/
theorem default_sentinel_collision :
    invValue InvArg.defaultArg = PyVal.pstr "__INVALIDATE__" ∧
    (cacheHandler ⟨[(("k", CExt.json),
        ⟨0, FileContent.val (PyVal.pstr "__INVALIDATE__")⟩)], false⟩
        10 "k" 60 InvArg.defaultArg (PyVal.pstr "fresh")).1
      = PyVal.pstr "__INVALIDATE__" ∧
    (cacheHandler ⟨[(("k", CExt.json),
        ⟨0, FileContent.val (PyVal.pstr "__INVALIDATE__")⟩)], false⟩
        10 "k" 60 InvArg.literalSentinel (PyVal.pstr "fresh")).1
      = PyVal.pstr "__INVALIDATE__" := by
  exact ⟨rfl, by decide, by decide⟩

/-- Claim C10 (amended): the default `invalidate_if_return` is the plain
string `__INVALIDATE__`; the invalidate comparison is active exactly when
the supplied argument is not that interned string object.  When inactive,
a fresh cached value is always served, even one equal to the sentinel
string; when active, the cached value is served exactly when it differs
from the supplied value, and an equal cached value is skipped as a miss,
so the function is rerun. -/
theorem invalidate_sentinel_semantics :
    ∀ (st : FsState) (nowMs ttlMs : Int) (key : String) (f : CacheFile)
      (v : PyVal) (inv : InvArg),
      findFile st key CExt.json = some f → f.content = FileContent.val v →
      findFile st key CExt.pkl = none →
      is_expired nowMs f.mtime ttlMs = false →
      (checkActive inv = false →
        (readPhase st nowMs key ttlMs inv).hit = some v) ∧
      (checkActive inv = true → v ≠ invValue inv →
        (readPhase st nowMs key ttlMs inv).hit = some v) ∧
      (checkActive inv = true → v = invValue inv →
        (readPhase st nowMs key ttlMs inv).hit = none) := by
  intro st nowMs ttlMs key f v inv hj hc hp he
  refine ⟨fun ha => ?_, fun ha hne => ?_, fun ha heq => ?_⟩
  · have h1 := readStep_hit st nowMs ttlMs key inv CExt.json f v hj he hc
      (by simp [ha])
    simp [readPhase, h1]
  · have h1 := readStep_hit st nowMs ttlMs key inv CExt.json f v hj he hc
      (by simp [ha, hne])
    simp [readPhase, h1]
  · have h1 := readStep_invalidated st nowMs ttlMs key inv CExt.json f v hj he hc
      ⟨ha, heq⟩
    have h2 := readStep_none st nowMs ttlMs key inv CExt.pkl hp
    simp [readPhase, h1, h2]

/-- Claim C10 amended witness: with an active sentinel equal to the cached
value, the entry is skipped. -/
theorem invalidate_sentinel_semantics_witness :
    (readPhase stFresh 10 "k" 2000 (InvArg.passed (PyVal.pstr "v"))).hit = none :=
  (invalidate_sentinel_semantics stFresh 10 2000 "k"
    ⟨0, FileContent.val (PyVal.pstr "v")⟩ (PyVal.pstr "v")
    (InvArg.passed (PyVal.pstr "v"))
    (by decide) rfl (by decide) (by decide)).2.2 rfl rfl

/-- Claim C5 counterexample.  The claim asserts that when a receiver is
present, its `instance_id` attribute is folded into the key whenever the
attribute exists.  The wrapper appends the identity component only if
`instance_id` is truthy: for a receiver whose `instance_id` stringifies to
the empty string the attribute exists, yet the component list carries no
identity component at all (neither the value nor the shared sentinel). -/
theorem empty_instance_id_not_folded :
    cacheKeyComponents "fetch" true [ArgObj.withIdAttr PyVal.pnone ""] [] =
      [KeyComp.fname "fetch", KeyComp.argsC [], KeyComp.kwargsC []] ∧
    KeyComp.identC "" ∉
      cacheKeyComponents "fetch" true [ArgObj.withIdAttr PyVal.pnone ""] [] := by
  exact ⟨by decide, by decide⟩

/-- Claim C5 (amended): the key components are the function name, the
positional arguments with the first dropped exactly when the call is a
method call with arguments (the qualname-dot heuristic), and the keyword
arguments in key-sorted order (hence order-independent for any genuine
keyword dictionary, whose keys are duplicate-free); when the receiver has
an `instance_id` whose string form is non-empty it is appended, when the
attribute is missing the shared token `__DEFAULT__` is appended — so two
distinct receivers without the attribute produce identical components and
therefore the same cache key — and when the attribute stringifies to the
empty string no identity component is appended at all. -/
theorem cache_key_derivation :
    (∀ (f : String) (v : PyVal) (rest : List ArgObj) (kw : List (String × PyVal)),
      cacheKeyComponents f true (ArgObj.plain v :: rest) kw =
        [KeyComp.fname f, KeyComp.argsC rest, KeyComp.kwargsC (sortKwargs kw),
         KeyComp.identC "__DEFAULT__"]) ∧
    (∀ (f : String) (v : PyVal) (s : String) (rest : List ArgObj)
      (kw : List (String × PyVal)), s ≠ "" →
      cacheKeyComponents f true (ArgObj.withIdAttr v s :: rest) kw =
        [KeyComp.fname f, KeyComp.argsC rest, KeyComp.kwargsC (sortKwargs kw),
         KeyComp.identC s]) ∧
    (∀ (f : String) (v : PyVal) (rest : List ArgObj) (kw : List (String × PyVal)),
      cacheKeyComponents f true (ArgObj.withIdAttr v "" :: rest) kw =
        [KeyComp.fname f, KeyComp.argsC rest, KeyComp.kwargsC (sortKwargs kw)]) ∧
    (∀ (f : String) (args : List ArgObj) (kw : List (String × PyVal)),
      cacheKeyComponents f false args kw =
        [KeyComp.fname f, KeyComp.argsC args, KeyComp.kwargsC (sortKwargs kw)]) ∧
    (∀ (f : String) (m : Bool) (args : List ArgObj)
      (kw1 kw2 : List (String × PyVal)), kw1.Perm kw2 →
      (kw1.map Prod.fst).Nodup →
      cacheKeyComponents f m args kw1 = cacheKeyComponents f m args kw2) := by
  refine ⟨fun f v rest kw => by simp [cacheKeyComponents],
    fun f v s rest kw hs => by simp [cacheKeyComponents, hs],
    fun f v rest kw => by simp [cacheKeyComponents],
    fun f args kw => by simp [cacheKeyComponents],
    fun f m args kw1 kw2 hperm hnd => ?_⟩
  have hsort : sortKwargs kw1 = sortKwargs kw2 := by
    apply sorted_perm_nodupKeys_eq
    · exact ((List.perm_insertionSort kwLE kw1).trans hperm).trans
        (List.perm_insertionSort kwLE kw2).symm
    · exact List.sorted_insertionSort kwLE kw1
    · exact List.sorted_insertionSort kwLE kw2
    · exact ((List.perm_insertionSort kwLE kw1).map Prod.fst).symm.nodup hnd
  simp [cacheKeyComponents, hsort]

/-- Claim C5 amended witness: the same keyword dictionary presented in two
orders produces the same components. -/
theorem cache_key_derivation_witness :
    ([("b", PyVal.pnone), ("a", PyVal.pint 1)].Perm
      [("a", PyVal.pint 1), ("b", PyVal.pnone)]) ∧
    cacheKeyComponents "fetch" true [ArgObj.plain PyVal.pnone]
        [("b", PyVal.pnone), ("a", PyVal.pint 1)] =
      cacheKeyComponents "fetch" true [ArgObj.plain PyVal.pnone]
        [("a", PyVal.pint 1), ("b", PyVal.pnone)] := by
  have hperm : ([("b", PyVal.pnone), ("a", PyVal.pint 1)].Perm
      [("a", PyVal.pint 1), ("b", PyVal.pnone)]) :=
    List.Perm.swap ("a", PyVal.pint 1) ("b", PyVal.pnone) []
  exact ⟨hperm, cache_key_derivation.2.2.2.2 "fetch" true [ArgObj.plain PyVal.pnone]
    _ _ hperm (by decide)⟩

/-- Concrete request with `cache_time` set: the failing input for the
cache-consulting worker path. -/
def cachedReq : Request := ⟨some "r1", some 60⟩

/-- Worker outcomes for a batch consisting of `cachedReq`, with the network
ready to answer 200: the worker still raises, on every pass, because
`cache_handler.get` does not exist. -/
def cachedReqOuts : Nat → WorkerOut := fun _ => workerStep cachedReq (HttpResult.ok 200 "body")

/-- Claim C2 (code bug): the `LocalCache` class defines neither `get` nor
`set`, yet `_worker` calls `cache_handler.get(cache_hash)` (and would call
`cache_handler.set`) whenever `cache_time` is set.  The attribute access
raises `AttributeError` inside the `try`, whose `except` clause only
catches `requests.exceptions.RequestException`, so the worker raises before
any cache check or network call — no request with `cache_time` can ever be
served, let alone cached; a request without `cache_time` proceeds to the
HTTP call normally. -/
theorem worker_cache_attribute_missing :
    "get" ∉ localCacheMemberNames ∧
    "set" ∉ localCacheMemberNames ∧
    workerStep cachedReq (HttpResult.ok 200 "body") = WorkerOut.exn ∧
    workerStep cachedReq (HttpResult.reqError "timeout") = WorkerOut.exn ∧
    workerStep ⟨some "r1", none⟩ (HttpResult.ok 200 "body")
      = WorkerOut.ok (Payload.success 200 "body") ∧
    workerStep ⟨some "r1", none⟩ (HttpResult.reqError "timeout")
      = WorkerOut.ok (Payload.failure "timeout") := by
  exact ⟨by decide, by decide, by decide, by decide, by decide, by decide⟩

/-- Claim C1 (code bug): a worker that raises on the first pass and again
on the retry leaves `None` at its index — the failure is not surfaced as an
error entry, contradicting the no-gaps guarantee (and the docstring of
`run`, which promises a list of dictionaries).  The input is concrete and
reachable: a single request with `cache_time` set makes the worker raise
`AttributeError` on both passes (see `worker_cache_attribute_missing`), and
`run` returns a one-element list whose only entry is `None`. -/
theorem run_leaves_none_on_double_raise :
    runBatch [cachedReq] cachedReqOuts cachedReqOuts = [none] ∧
    (runBatch [cachedReq] cachedReqOuts cachedReqOuts).getD 0 none = none := by
  exact ⟨by decide, by decide⟩

theorem mergeResults_cons (init : List (Option BatchResult)) (r : BatchResult)
    (t : List BatchResult) :
    mergeResults init (r :: t) = mergeResults (init.set r.index (some r)) t := rfl

theorem mergeResults_length (init : List (Option BatchResult)) (rs : List BatchResult) :
    (mergeResults init rs).length = init.length := by
  induction rs generalizing init with
  | nil => rfl
  | cons r t ih => rw [mergeResults_cons, ih, List.length_set]

theorem mergeResults_getD_of_forall_ne (init : List (Option BatchResult))
    (rs : List BatchResult) (i : Nat) (h : ∀ r ∈ rs, r.index ≠ i) :
    (mergeResults init rs).getD i none = init.getD i none := by
  induction rs generalizing init with
  | nil => rfl
  | cons r t ih =>
    rw [mergeResults_cons, ih _ (fun r' hr' => h r' (List.mem_cons_of_mem r hr'))]
    have hne : r.index ≠ i := h r (List.mem_cons_self r t)
    simp [List.getD_eq_getElem?_getD, List.getElem?_set, hne]

theorem mergeResults_getD_of_mem (init : List (Option BatchResult))
    (rs : List BatchResult) (r : BatchResult) (i : Nat)
    (hmem : r ∈ rs) (hidx : r.index = i) (hlt : i < init.length)
    (huniq : ∀ r' ∈ rs, r'.index = i → r' = r) :
    (mergeResults init rs).getD i none = some r := by
  induction rs generalizing init with
  | nil => exact absurd hmem (List.not_mem_nil r)
  | cons a t ih =>
    rw [mergeResults_cons]
    by_cases hex : ∃ r' ∈ t, r'.index = i
    · obtain ⟨r', hr't, hr'i⟩ := hex
      have hr'r : r' = r := huniq r' (List.mem_cons_of_mem a hr't) hr'i
      exact ih (init.set a.index (some a)) (hr'r ▸ hr't)
        (by rw [List.length_set]; exact hlt)
        (fun x hx hxi => huniq x (List.mem_cons_of_mem a hx) hxi)
    · have hra : r = a := by
        rcases List.mem_cons.mp hmem with h | h
        · exact h
        · exact absurd ⟨r, h, hidx⟩ hex
      have hnone : ∀ r' ∈ t, r'.index ≠ i := by
        intro r' hr' hr'i
        exact hex ⟨r', hr', hr'i⟩
      rw [mergeResults_getD_of_forall_ne _ _ _ hnone]
      subst hra
      simp [List.getD_eq_getElem?_getD, List.getElem?_set, hidx, hlt]

theorem passResult_eq_some (reqs : List Request) (omap : Nat → Nat)
    (outs : Nat → WorkerOut) (t : Nat) (x : BatchResult) :
    passResult reqs omap outs t = some x ↔
      ∃ p, outs t = WorkerOut.ok p ∧
        x = ⟨mkReqId (reqs.getD t default) t, omap t, p⟩ := by
  cases h : outs t <;> simp [passResult, h, eq_comm]

theorem passFail_eq_some (omap : Nat → Nat) (outs : Nat → WorkerOut)
    (t : Nat) (i : Nat) :
    passFail omap outs t = some i ↔ outs t = WorkerOut.exn ∧ i = omap t := by
  cases h : outs t <;> simp [passFail, h, eq_comm]

theorem mem_processBatch_results (reqs : List Request) (omap : Nat → Nat)
    (outs : Nat → WorkerOut) (x : BatchResult) :
    x ∈ (processBatch reqs omap outs).1 ↔
      ∃ t, t < reqs.length ∧ ∃ p, outs t = WorkerOut.ok p ∧
        x = ⟨mkReqId (reqs.getD t default) t, omap t, p⟩ := by
  simp only [processBatch, List.mem_filterMap, List.mem_range]
  constructor
  · rintro ⟨t, ht, hp⟩
    exact ⟨t, ht, (passResult_eq_some reqs omap outs t x).mp hp⟩
  · rintro ⟨t, ht, hp⟩
    exact ⟨t, ht, (passResult_eq_some reqs omap outs t x).mpr hp⟩

theorem mem_firstPassFailed (reqs : List Request) (outs1 : Nat → WorkerOut)
    (i : Nat) :
    i ∈ firstPassFailed reqs outs1 ↔ i < reqs.length ∧ outs1 i = WorkerOut.exn := by
  simp only [firstPassFailed, processBatch, List.mem_filterMap, List.mem_range]
  constructor
  · rintro ⟨t, ht, hp⟩
    rcases (passFail_eq_some _ outs1 t i).mp hp with ⟨hexn, hit⟩
    exact ⟨hit ▸ ht, hit ▸ hexn⟩
  · rintro ⟨hi, hexn⟩
    exact ⟨i, hi, (passFail_eq_some _ outs1 i i).mpr ⟨hexn, rfl⟩⟩

theorem filterMap_refl_sublist (l : List Nat) (f : Nat → Option Nat)
    (h : ∀ a b, f a = some b → b = a) : (l.filterMap f).Sublist l := by
  induction l with
  | nil => simp
  | cons a t ih =>
    rw [List.filterMap_cons]
    cases hfa : f a with
    | none => exact ih.cons a
    | some b =>
      have hb : b = a := h a b hfa
      subst hb
      exact ih.cons₂ b

theorem firstPassFailed_nodup (reqs : List Request) (outs1 : Nat → WorkerOut) :
    (firstPassFailed reqs outs1).Nodup := by
  apply List.Nodup.sublist _ (List.nodup_range reqs.length)
  apply filterMap_refl_sublist
  intro a b hab
  exact ((passFail_eq_some _ outs1 a b).mp hab).2

theorem replicate_none_getD (n i : Nat) :
    (List.replicate n (none : Option BatchResult)).getD i none = none := by
  by_cases h : i < n <;>
    simp [List.getD_eq_getElem?_getD, List.getElem?_replicate, h]

theorem mem_retryPass (reqs : List Request) (failed : List Nat)
    (outs2 : Nat → WorkerOut) (x : BatchResult) :
    x ∈ retryPass reqs failed outs2 ↔
      ∃ t, t < failed.length ∧ ∃ p, outs2 (failed.getD t t) = WorkerOut.ok p ∧
        x = ⟨mkReqId ((failed.map (fun i => reqs.getD i default)).getD t default) t,
             failed.getD t t, p⟩ := by
  simpa [retryPass, List.length_map] using
    mem_processBatch_results (failed.map fun i => reqs.getD i default)
      (fun t => failed.getD t t) (fun t => outs2 (failed.getD t t)) x

theorem retryPass_index_mem (reqs : List Request) (failed : List Nat)
    (outs2 : Nat → WorkerOut) (x : BatchResult)
    (hx : x ∈ retryPass reqs failed outs2) : x.index ∈ failed := by
  rcases (mem_retryPass reqs failed outs2 x).mp hx with ⟨t, ht, p, _, hxeq⟩
  subst hxeq
  show failed.getD t t ∈ failed
  rw [List.getD_eq_getElem _ _ ht]
  exact List.getElem_mem ht

theorem pass1_merge_getD_ok (reqs : List Request) (outs1 : Nat → WorkerOut)
    (i : Nat) (p : Payload) (hi : i < reqs.length)
    (hok : outs1 i = WorkerOut.ok p) :
    (mergeResults (List.replicate reqs.length none)
      (processBatch reqs (fun t => t) outs1).1).getD i none
      = some ⟨mkReqId (reqs.getD i default) i, i, p⟩ := by
  apply mergeResults_getD_of_mem
  · exact (mem_processBatch_results reqs (fun t => t) outs1 _).mpr ⟨i, hi, p, hok, rfl⟩
  · rfl
  · simpa using hi
  · intro r' hr' hr'i
    rcases (mem_processBatch_results reqs (fun t => t) outs1 r').mp hr'
      with ⟨t, _, q, hq, hr'eq⟩
    subst hr'eq
    have hti : t = i := hr'i
    subst hti
    rw [hok] at hq
    cases hq
    rfl

theorem pass1_merge_getD_exn (reqs : List Request) (outs1 : Nat → WorkerOut)
    (i : Nat) (hexn : outs1 i = WorkerOut.exn) :
    (mergeResults (List.replicate reqs.length none)
      (processBatch reqs (fun t => t) outs1).1).getD i none = none := by
  rw [mergeResults_getD_of_forall_ne, replicate_none_getD]
  intro r hr hri
  rcases (mem_processBatch_results reqs (fun t => t) outs1 r).mp hr
    with ⟨t, _, q, hq, hre⟩
  subst hre
  have hti : t = i := hri
  subst hti
  rw [hexn] at hq
  cases hq

theorem runBatch_getD_ok (reqs : List Request) (outs1 outs2 : Nat → WorkerOut)
    (i : Nat) (p : Payload) (hi : i < reqs.length)
    (hok : outs1 i = WorkerOut.ok p) :
    (runBatch reqs outs1 outs2).getD i none
      = some ⟨mkReqId (reqs.getD i default) i, i, p⟩ := by
  unfold runBatch
  by_cases hfe : (firstPassFailed reqs outs1).isEmpty
  · simp only [hfe, if_true]
    exact pass1_merge_getD_ok reqs outs1 i p hi hok
  · simp only [hfe, if_false, Bool.false_eq_true]
    rw [mergeResults_getD_of_forall_ne]
    · exact pass1_merge_getD_ok reqs outs1 i p hi hok
    · intro x hx hxi
      have hmem := retryPass_index_mem reqs _ outs2 x hx
      rw [hxi] at hmem
      rcases (mem_firstPassFailed reqs outs1 i).mp hmem with ⟨_, hexn⟩
      rw [hok] at hexn
      cases hexn

theorem firstPassFailed_not_isEmpty (reqs : List Request) (outs1 : Nat → WorkerOut)
    (i : Nat) (hmem : i ∈ firstPassFailed reqs outs1) :
    (firstPassFailed reqs outs1).isEmpty = false := by
  cases hfe : firstPassFailed reqs outs1 with
  | nil => rw [hfe] at hmem; cases hmem
  | cons a t => rfl

theorem runBatch_getD_retry_ok (reqs : List Request) (outs1 outs2 : Nat → WorkerOut)
    (i : Nat) (q : Payload) (hfail : i ∈ firstPassFailed reqs outs1)
    (hok : outs2 i = WorkerOut.ok q) :
    ∃ r, (runBatch reqs outs1 outs2).getD i none = some r ∧
      r.index = i ∧ r.result = q := by
  have hi : i < reqs.length := ((mem_firstPassFailed reqs outs1 i).mp hfail).1
  have hnd := firstPassFailed_nodup reqs outs1
  obtain ⟨t0, ht0, hti⟩ := List.mem_iff_getElem.mp hfail
  have hgd : (firstPassFailed reqs outs1).getD t0 t0 = i := by
    rw [List.getD_eq_getElem _ _ ht0]
    exact hti
  refine ⟨⟨mkReqId (((firstPassFailed reqs outs1).map
      (fun j => reqs.getD j default)).getD t0 default) t0, i, q⟩, ?_, rfl, rfl⟩
  unfold runBatch
  simp only [firstPassFailed_not_isEmpty reqs outs1 i hfail, if_false,
    Bool.false_eq_true]
  apply mergeResults_getD_of_mem
  · refine (mem_retryPass reqs _ outs2 _).mpr ⟨t0, ht0, q, ?_, ?_⟩
    · rw [hgd]
      exact hok
    · rw [hgd]
  · rfl
  · rw [mergeResults_length, List.length_replicate]
    exact hi
  · intro x' hx' hx'i
    rcases (mem_retryPass reqs _ outs2 x').mp hx' with ⟨t', ht', p', hp', hx'eq⟩
    subst hx'eq
    have hidx' : (firstPassFailed reqs outs1).getD t' t' = i := hx'i
    have ht'0 : t' = t0 := by
      rw [List.getD_eq_getElem _ _ ht'] at hidx'
      have : (firstPassFailed reqs outs1)[t'] = (firstPassFailed reqs outs1)[t0] := by
        rw [hidx', hti]
      exact (List.Nodup.getElem_inj_iff hnd).mp this
    subst ht'0
    rw [hgd, hok] at hp'
    cases hp'
    rw [hgd]

theorem runBatch_getD_retry_exn (reqs : List Request) (outs1 outs2 : Nat → WorkerOut)
    (i : Nat) (hfail : i ∈ firstPassFailed reqs outs1)
    (hexn2 : outs2 i = WorkerOut.exn) :
    (runBatch reqs outs1 outs2).getD i none = none := by
  have hexn1 := ((mem_firstPassFailed reqs outs1 i).mp hfail).2
  unfold runBatch
  simp only [firstPassFailed_not_isEmpty reqs outs1 i hfail, if_false,
    Bool.false_eq_true]
  rw [mergeResults_getD_of_forall_ne]
  · exact pass1_merge_getD_exn reqs outs1 i hexn1
  · intro x hx hxi
    rcases (mem_retryPass reqs _ outs2 x).mp hx with ⟨t, ht, p, hp, hxeq⟩
    subst hxeq
    have hidx : (firstPassFailed reqs outs1).getD t t = i := hxi
    rw [hidx, hexn2] at hp
    cases hp

theorem runBatch_outs2_congr (reqs : List Request)
    (outs1 outs2 outs2' : Nat → WorkerOut)
    (hagree : ∀ i ∈ firstPassFailed reqs outs1, outs2 i = outs2' i) :
    runBatch reqs outs1 outs2 = runBatch reqs outs1 outs2' := by
  have hretry : retryPass reqs (firstPassFailed reqs outs1) outs2
      = retryPass reqs (firstPassFailed reqs outs1) outs2' := by
    unfold retryPass processBatch
    simp only []
    apply List.filterMap_congr
    intro t ht
    have htl : t < (firstPassFailed reqs outs1).length := by
      simpa using List.mem_range.mp ht
    have hmem : (firstPassFailed reqs outs1).getD t t ∈ firstPassFailed reqs outs1 := by
      rw [List.getD_eq_getElem _ _ htl]
      exact List.getElem_mem htl
    simp only [passResult]
    rw [hagree _ hmem]
  simp only [runBatch, hretry]

/-- Claim C6 (confirmed): whenever the first pass fails on a non-empty set
of indices, (1) that set is exactly the indices whose first-pass worker
raised; (2) the run consults the retry outcomes only at those indices, i.e.
requests that succeeded in the first pass are not re-invoked; (3) a first-
pass success lands at its own original index unchanged by the retry; (4) a
retried index whose retry worker returns is merged back at its original
position; and (5) a retried index whose retry worker raises again is left
as it stood after the first pass — there is no further retry pass. -/
theorem batch_retry_scoped_to_failures :
    ∀ (reqs : List Request) (outs1 outs2 outs2' : Nat → WorkerOut),
      (∀ i, i ∈ firstPassFailed reqs outs1 ↔
        (i < reqs.length ∧ outs1 i = WorkerOut.exn)) ∧
      ((∀ i ∈ firstPassFailed reqs outs1, outs2 i = outs2' i) →
        runBatch reqs outs1 outs2 = runBatch reqs outs1 outs2') ∧
      (∀ i p, i < reqs.length → outs1 i = WorkerOut.ok p →
        (runBatch reqs outs1 outs2).getD i none =
          some ⟨mkReqId (reqs.getD i default) i, i, p⟩) ∧
      (∀ i q, i ∈ firstPassFailed reqs outs1 → outs2 i = WorkerOut.ok q →
        ∃ r, (runBatch reqs outs1 outs2).getD i none = some r ∧
          r.index = i ∧ r.result = q) ∧
      (∀ i, i ∈ firstPassFailed reqs outs1 → outs2 i = WorkerOut.exn →
        (runBatch reqs outs1 outs2).getD i none = none) := by
  intro reqs outs1 outs2 outs2'
  exact ⟨mem_firstPassFailed reqs outs1,
    runBatch_outs2_congr reqs outs1 outs2 outs2',
    fun i p hi hok => runBatch_getD_ok reqs outs1 outs2 i p hi hok,
    fun i q hfail hok => runBatch_getD_retry_ok reqs outs1 outs2 i q hfail hok,
    fun i hfail hexn => runBatch_getD_retry_exn reqs outs1 outs2 i hfail hexn⟩

/-- Request without id or cache_time, used by the retry witnesses. -/
def reqPlain : Request := ⟨none, none⟩

/-- First-pass outcomes: index 0 returns, index 1 raises. -/
def outsFirst : Nat → WorkerOut :=
  fun t => if t = 0 then WorkerOut.ok (Payload.success 200 "a") else WorkerOut.exn

/-- Retry outcomes: every worker returns. -/
def outsRetry : Nat → WorkerOut := fun _ => WorkerOut.ok (Payload.success 201 "b")

/-- Claim C6 witness: in a two-request batch where index 1 fails the first
pass and succeeds on retry, its retry result is merged back at index 1. -/
theorem batch_retry_scoped_to_failures_witness :
    1 ∈ firstPassFailed [reqPlain, reqPlain] outsFirst ∧
    outsRetry 1 = WorkerOut.ok (Payload.success 201 "b") ∧
    ∃ r, (runBatch [reqPlain, reqPlain] outsFirst outsRetry).getD 1 none = some r ∧
      r.index = 1 ∧ r.result = Payload.success 201 "b" :=
  ⟨by decide, by decide,
    (batch_retry_scoped_to_failures [reqPlain, reqPlain] outsFirst
      outsRetry outsRetry).2.2.2.1 1 (Payload.success 201 "b")
      (by decide) (by decide)⟩
